import Mathlib

/-!
# Verification of the SIMER native genotype engines

Shallow embedding of the genotype-matrix engines exposed by the SIMER
package through its binding layer (`src/RcppExports.cpp`): the binary
codec (`write_bfile` / `read_bfile`), the quality-control filter
(`GenoFilter`), the mating simulator (`GenoMixer`), the missing-value
scanners (`hasNA` / `hasNABed`), the pedigree resolver
(`PedigreeCorrector`), and the registration table (`CallEntries`,
`R_init_simer`).  The implementations behind the bindings are not part of
the visible sources, so each engine is modelled from the specification;
the registration table is embedded from the source file itself.
-/

namespace Simer

/-- A genotype cell: allele-dosage 0, 1, 2, or a missing call. -/
inductive Cell where
  | g0
  | g1
  | g2
  | miss
deriving DecidableEq, Repr

/-! ## Parallel scheduling model

Modelled from the spec (§5): every parallel stage partitions its work
units disjointly across threads ahead of time, each thread processes its
partition independently, and the partial outputs are recombined in the
original order.  A non-positive thread count falls back to single-threaded
execution. -/

/-- Modelled from the spec: effective worker count; a non-positive
caller-supplied thread count falls back to single-threaded execution. -/
def effThreads (t : Int) : Nat := if t ≤ 0 then 1 else t.toNat

/-- Size of each statically assigned partition for `len` work units. -/
def chunkSize (t : Int) (len : Nat) : Nat :=
  max 1 ((len + effThreads t - 1) / effThreads t)

/-- Fuel-driven worker splitting a work list into contiguous partitions of
`k` units; the fuel bounds the recursion depth by the list length. -/
def chunkGo (k : Nat) : Nat → List α → List (List α)
  | _, [] => []
  | 0, x :: xs => [x :: xs]
  | fuel + 1, x :: xs =>
      if k = 0 then [x :: xs]
      else (x :: xs).take k :: chunkGo k fuel ((x :: xs).drop k)

/-- Split a work list into contiguous partitions of `k` units each. -/
def chunkList (k : Nat) (l : List α) : List (List α) := chunkGo k l.length l

/-- The statically assigned per-thread partitions of a work list. -/
def parChunks (t : Int) (l : List α) : List (List α) :=
  chunkList (chunkSize t l.length) l

/-- Data-parallel map: each thread maps its partition, outputs are
recombined in original order. -/
def parMap (t : Int) (f : α → β) (l : List α) : List β :=
  ((parChunks t l).map (List.map f)).flatten

/-- Data-parallel filter: each thread filters its partition, outputs are
recombined in original order. -/
def parFilter (t : Int) (p : α → Bool) (l : List α) : List α :=
  ((parChunks t l).map (List.filter p)).flatten

/-- Data-parallel existence scan (short-circuiting within each thread). -/
def parAny (t : Int) (p : α → Bool) (l : List α) : Bool :=
  ((parChunks t l).map (List.any · p)).any id

lemma chunkGo_flatten (k : Nat) (fuel : Nat) (l : List α)
    (h : l.length ≤ fuel + 1) : (chunkGo k fuel l).flatten = l := by
  induction fuel generalizing l with
  | zero =>
      match l with
      | [] => rfl
      | x :: xs => simp [chunkGo]
  | succ n ih =>
      match l with
      | [] => rfl
      | x :: xs =>
          rw [chunkGo]
          by_cases hk : k = 0
          · simp [hk]
          · rw [if_neg hk]
            simp only [List.flatten_cons]
            rw [ih ((x :: xs).drop k)
                (by simp only [List.length_drop, List.length_cons] at h ⊢
                    omega),
              List.take_append_drop]

lemma chunkList_flatten (k : Nat) (l : List α) : (chunkList k l).flatten = l := by
  match l with
  | [] => rfl
  | x :: xs => exact chunkGo_flatten k (x :: xs).length (x :: xs) (by omega)

lemma parChunks_flatten (t : Int) (l : List α) : (parChunks t l).flatten = l :=
  chunkList_flatten _ l

lemma parMap_eq (t : Int) (f : α → β) (l : List α) : parMap t f l = l.map f := by
  rw [parMap, ← List.map_flatten, parChunks_flatten]

lemma parFilter_eq (t : Int) (p : α → Bool) (l : List α) :
    parFilter t p l = l.filter p := by
  rw [parFilter, ← List.filter_flatten, parChunks_flatten]

lemma any_map_flatten (p : α → Bool) (ll : List (List α)) :
    (ll.map (fun x => x.any p)).any id = ll.flatten.any p := by
  induction ll with
  | nil => rfl
  | cons x xs ih => simp [List.any_append, ih]

lemma parAny_eq (t : Int) (p : α → Bool) (l : List α) : parAny t p l = l.any p := by
  rw [parAny, any_map_flatten, parChunks_flatten]

/-! ## BedCodec -/

/-- Modelled from the spec: the fixed 2-bit code table of the binary
genotype format (§6); `write_bfile`'s implementation is not under the
visible sources.  The exact code-to-dosage mapping is an open question in
the spec, so a fixed injective table is chosen, with dosage 0 as the
zero-padding pattern. -/
def cellCode : Cell → Nat
  | .g0 => 0
  | .g1 => 1
  | .g2 => 2
  | .miss => 3

/-- Inverse of the 2-bit code table. -/
def codeCell (b : Nat) : Cell :=
  if b = 0 then .g0 else if b = 1 then .g1 else if b = 2 then .g2 else .miss

/-- Pack four genotype calls into one byte, two bits per call. -/
def packByte (a b c d : Cell) : Nat :=
  cellCode a + 4 * cellCode b + 16 * cellCode c + 64 * cellCode d

/-- Unpack one byte into its four 2-bit genotype calls. -/
def unpackByte (x : Nat) : List Cell :=
  [codeCell (x % 4), codeCell (x / 4 % 4), codeCell (x / 16 % 4), codeCell (x / 64 % 4)]

/-- Modelled from the spec: `write_bfile` packs one marker column four
calls per byte, zero-padding the final byte when the individual count is
not a multiple of four (§4.1, §6). -/
def encodeColumn : List Cell → List Nat
  | [] => []
  | [a] => [packByte a .g0 .g0 .g0]
  | [a, b] => [packByte a b .g0 .g0]
  | [a, b, c] => [packByte a b c .g0]
  | a :: b :: c :: d :: rest => packByte a b c d :: encodeColumn rest

/-- Number of packed bytes per marker column for `n` individuals. -/
def bytesPerCol (n : Nat) : Nat := (n + 3) / 4

/-- Modelled from the spec: `read_bfile` decodes one marker column,
keeping the first `n` calls and discarding the padding bits. -/
def decodeColumn (n : Nat) (bytes : List Nat) : List Cell :=
  ((bytes.map unpackByte).flatten).take n

/-- Split the packed body into its `nMrk` per-marker byte blocks. -/
def splitCols (n : Nat) : Nat → List Nat → List (List Nat)
  | 0, _ => []
  | nMrk + 1, bytes =>
      bytes.take (bytesPerCol n) :: splitCols n nMrk (bytes.drop (bytesPerCol n))

/-- First magic byte of the binary genotype format. -/
def bedMagic1 : Nat := 108

/-- Second magic byte of the binary genotype format. -/
def bedMagic2 : Nat := 27

/-- Orientation byte: marker-major mode. -/
def bedMode : Nat := 1

/-- Modelled from the spec: `write_bfile` serializes the full matrix as a
2-byte format marker, 1 orientation byte, then marker-major packed blocks;
column blocks are partitioned across threads and written in original
column order; verbosity never affects the output (§4.1, §5, §6, §7).
The matrix is marker-major: one inner list per marker. -/
def write_bfile (m : List (List Cell)) (threads : Int) (_verbose : Bool) :
    List Nat :=
  bedMagic1 :: bedMagic2 :: bedMode :: (parMap threads encodeColumn m).flatten

/-- Modelled from the spec: `read_bfile` deserializes a file into a
pre-allocated matrix of `nMrk` markers over `n` individuals, failing on a
malformed header or a truncated file; `maxLine` only bounds buffering and
verbosity only controls progress reporting, so neither affects the decoded
cells (§4.1, §5, §7). -/
def read_bfile (bed : List Nat) (n nMrk : Nat) (_maxLine : Int)
    (threads : Int) (_verbose : Bool) : Option (List (List Cell)) :=
  match bed with
  | m1 :: m2 :: mode :: body =>
      if m1 = bedMagic1 ∧ m2 = bedMagic2 ∧ mode = bedMode ∧
          body.length = nMrk * bytesPerCol n then
        some (parMap threads (decodeColumn n) (splitCols n nMrk body))
      else none
  | _ => none

lemma codeCell_cellCode (c : Cell) : codeCell (cellCode c) = c := by
  cases c <;> rfl

lemma unpackByte_packByte (a b c d : Cell) :
    unpackByte (packByte a b c d) = [a, b, c, d] := by
  cases a <;> cases b <;> cases c <;> cases d <;> rfl

lemma encodeColumn_length (col : List Cell) :
    (encodeColumn col).length = bytesPerCol col.length := by
  induction col using encodeColumn.induct with
  | case1 => simp [encodeColumn, bytesPerCol]
  | case2 a => simp [encodeColumn, bytesPerCol]
  | case3 a b => simp [encodeColumn, bytesPerCol]
  | case4 a b c => simp [encodeColumn, bytesPerCol]
  | case5 a b c d rest ih =>
      simp only [encodeColumn, List.length_cons, ih, bytesPerCol]
      omega

lemma decodeColumn_encodeColumn (col : List Cell) :
    decodeColumn col.length (encodeColumn col) = col := by
  induction col using encodeColumn.induct with
  | case1 => rfl
  | case2 a => simp [decodeColumn, encodeColumn, unpackByte_packByte]
  | case3 a b => simp [decodeColumn, encodeColumn, unpackByte_packByte]
  | case4 a b c => simp [decodeColumn, encodeColumn, unpackByte_packByte]
  | case5 a b c d rest ih =>
      simp only [decodeColumn, encodeColumn, List.map_cons, List.flatten_cons,
        unpackByte_packByte] at ih ⊢
      simpa [List.take_cons, List.length_cons] using ih

lemma splitCols_encode (n : Nat) (m : List (List Cell))
    (h : ∀ col ∈ m, col.length = n) :
    (splitCols n m.length ((m.map encodeColumn).flatten)).map (decodeColumn n)
      = m := by
  induction m with
  | nil => rfl
  | cons col rest ih =>
      have hcol : col.length = n := h col (List.mem_cons_self col rest)
      have hl : (encodeColumn col).length = bytesPerCol n := by
        rw [encodeColumn_length, hcol]
      simp only [List.map_cons, List.flatten_cons, List.length_cons, splitCols]
      rw [List.take_left' hl, List.drop_left' hl,
        ih (fun c hc => h c (List.mem_cons_of_mem col hc))]
      rw [← hcol, decodeColumn_encodeColumn]

lemma write_body_length (n : Nat) (m : List (List Cell))
    (h : ∀ col ∈ m, col.length = n) :
    ((m.map encodeColumn).flatten).length = m.length * bytesPerCol n := by
  induction m with
  | nil => simp
  | cons col rest ih =>
      simp only [List.map_cons, List.flatten_cons, List.length_append,
        List.length_cons]
      rw [encodeColumn_length, h col (List.mem_cons_self col rest),
        ih (fun c hc => h c (List.mem_cons_of_mem col hc))]
      ring

/-- C1: for every genotype matrix of any dimensions (including an
individual count that is not a multiple of four) holding any mix of the
four cell states, encoding with `write_bfile` and decoding the file with
`read_bfile` into a matrix of the same dimensions reproduces every cell
of the original matrix exactly. -/
theorem write_read_roundtrip (m : List (List Cell)) (n : Nat)
    (tw tr maxLine : Int) (vw vr : Bool)
    (h : ∀ col ∈ m, col.length = n) :
    read_bfile (write_bfile m tw vw) n m.length maxLine tr vr = some m := by
  rw [show write_bfile m tw vw =
      bedMagic1 :: bedMagic2 :: bedMode :: (m.map encodeColumn).flatten by
    rw [write_bfile, parMap_eq]]
  rw [show read_bfile
        (bedMagic1 :: bedMagic2 :: bedMode :: (m.map encodeColumn).flatten)
        n m.length maxLine tr vr =
      if bedMagic1 = bedMagic1 ∧ bedMagic2 = bedMagic2 ∧ bedMode = bedMode ∧
          ((m.map encodeColumn).flatten).length = m.length * bytesPerCol n then
        some (parMap tr (decodeColumn n)
          (splitCols n m.length ((m.map encodeColumn).flatten)))
      else none from rfl]
  rw [if_pos ⟨rfl, rfl, rfl, write_body_length n m h⟩, parMap_eq,
    splitCols_encode n m h]

/-- Concrete instance of `write_read_roundtrip`: a 3-individual
(not a multiple of four) by 2-marker matrix containing all four states
round-trips exactly. -/
theorem write_read_roundtrip_witness :
    (∀ col ∈ [[Cell.g0, Cell.g1, Cell.miss], [Cell.g2, Cell.g2, Cell.g0]],
      col.length = 3) ∧
    read_bfile
      (write_bfile [[Cell.g0, Cell.g1, Cell.miss], [Cell.g2, Cell.g2, Cell.g0]]
        2 true)
      3 2 100 4 false =
      some [[Cell.g0, Cell.g1, Cell.miss], [Cell.g2, Cell.g2, Cell.g0]] :=
  ⟨by decide,
    write_read_roundtrip
      [[Cell.g0, Cell.g1, Cell.miss], [Cell.g2, Cell.g2, Cell.g0]] 3
      2 4 100 true false (by decide)⟩

/-! ## Missing-value scanners -/

/-- Whether a genotype call is missing. -/
def isMissCell (c : Cell) : Bool := c == Cell.miss

/-- Modelled from the spec: `hasNA` reports whether any cell of the
matrix is a missing call, scanning column partitions in parallel and
short-circuiting within each partition (§4.1); the implementation is not
under the visible sources. -/
def hasNA (m : List (List Cell)) (threads : Int) : Bool :=
  parAny threads (fun col => col.any isMissCell) m

/-- Modelled from the spec: `hasNABed` reports whether the packed file
contains any missing call, decoding the stream against the supplied
individual count and failing on a malformed header or truncated stream
(§4.1); the implementation is not under the visible sources. -/
def hasNABed (bed : List Nat) (ind : Nat) (_maxLine : Int) (threads : Int)
    (_verbose : Bool) : Option Bool :=
  match bed with
  | m1 :: m2 :: mode :: body =>
      if m1 = bedMagic1 ∧ m2 = bedMagic2 ∧ mode = bedMode ∧
          body.length % bytesPerCol ind = 0 then
        some (parAny threads (fun col => col.any isMissCell)
          ((splitCols ind (body.length / bytesPerCol ind) body).map
            (decodeColumn ind)))
      else none
  | _ => none

/-- C3: for every matrix written to a file by the codec, `hasNA` on the
decoded matrix returns the same boolean that `hasNABed` reports for the
file (with the matching individual count), whether or not the matrix
contains missing values. -/
theorem hasNA_agrees_hasNABed (m : List (List Cell)) (n : Nat)
    (tS tF tw maxLine : Int) (vw vF : Bool)
    (h : ∀ col ∈ m, col.length = n) :
    hasNABed (write_bfile m tw vw) n maxLine tF vF = some (hasNA m tS) := by
  have hlen := write_body_length n m h
  rw [show write_bfile m tw vw =
      bedMagic1 :: bedMagic2 :: bedMode :: (m.map encodeColumn).flatten by
    rw [write_bfile, parMap_eq]]
  rw [show hasNABed
        (bedMagic1 :: bedMagic2 :: bedMode :: (m.map encodeColumn).flatten)
        n maxLine tF vF =
      if bedMagic1 = bedMagic1 ∧ bedMagic2 = bedMagic2 ∧ bedMode = bedMode ∧
          ((m.map encodeColumn).flatten).length % bytesPerCol n = 0 then
        some (parAny tF (fun col => col.any isMissCell)
          ((splitCols n (((m.map encodeColumn).flatten).length / bytesPerCol n)
            ((m.map encodeColumn).flatten)).map (decodeColumn n)))
      else none from rfl]
  rw [if_pos ⟨rfl, rfl, rfl, by rw [hlen]; exact Nat.mul_mod_left _ _⟩]
  rw [hasNA, parAny_eq, parAny_eq]
  by_cases hn : n = 0
  · subst hn
    have hb : ((m.map encodeColumn).flatten).length = 0 := by
      rw [hlen]; simp [bytesPerCol]
    have hbody : (m.map encodeColumn).flatten = [] :=
      List.eq_nil_of_length_eq_zero hb
    have hm : m.any (fun col => col.any isMissCell) = false := by
      rw [List.any_eq_false]
      intro col hc
      have : col = [] :=
        List.eq_nil_of_length_eq_zero (h col hc)
      simp [this]
    rw [hbody, hm]
    rfl
  · have hpos : 0 < bytesPerCol n := by
      rw [bytesPerCol]; omega
    have hdiv : ((m.map encodeColumn).flatten).length / bytesPerCol n
        = m.length := by
      rw [hlen]; exact Nat.mul_div_cancel _ hpos
    rw [hdiv, splitCols_encode n m h]

/-- Concrete instance of `hasNA_agrees_hasNABed`: a matrix holding one
missing call and a matrix holding none. -/
theorem hasNA_agrees_hasNABed_witness :
    ((∀ col ∈ [[Cell.g0, Cell.miss], [Cell.g1, Cell.g2]], col.length = 2) ∧
      hasNABed (write_bfile [[Cell.g0, Cell.miss], [Cell.g1, Cell.g2]] 2 true)
        2 50 3 false =
        some (hasNA [[Cell.g0, Cell.miss], [Cell.g1, Cell.g2]] 4)) ∧
    ((∀ col ∈ [[Cell.g0, Cell.g2], [Cell.g1, Cell.g2]], col.length = 2) ∧
      hasNABed (write_bfile [[Cell.g0, Cell.g2], [Cell.g1, Cell.g2]] 2 true)
        2 50 3 false =
        some (hasNA [[Cell.g0, Cell.g2], [Cell.g1, Cell.g2]] 4)) :=
  ⟨⟨by decide,
      hasNA_agrees_hasNABed [[Cell.g0, Cell.miss], [Cell.g1, Cell.g2]] 2
        4 3 2 50 true false (by decide)⟩,
    ⟨by decide,
      hasNA_agrees_hasNABed [[Cell.g0, Cell.g2], [Cell.g1, Cell.g2]] 2
        4 3 2 50 true false (by decide)⟩⟩

/-! ## QCFilter (GenoFilter) -/

/-- Restrict a marker column to the pre-selected kept individuals. -/
def applyKeep (col : List Cell) : Option (List Nat) → List Cell
  | none => col
  | some ks => ks.filterMap (fun i => col[i]?)

/-- Number of missing calls in a column. -/
def missCount (col : List Cell) : Nat := col.countP isMissCell

/-- Number of non-missing calls in a column. -/
def nonMissCount (col : List Cell) : Nat := col.countP (fun c => !isMissCell c)

/-- Per-marker missing rate: missing count over individual count. -/
def missingRate (col : List Cell) : ℚ :=
  (missCount col : ℚ) / (col.length : ℚ)

/-- Reference-allele count over the non-missing calls. -/
def refCount (col : List Cell) : Nat :=
  2 * col.countP (· == Cell.g2) + col.countP (· == Cell.g1)

/-- Alternative-allele count over the non-missing calls. -/
def altCount (col : List Cell) : Nat :=
  2 * col.countP (· == Cell.g0) + col.countP (· == Cell.g1)

/-- Minor-allele frequency estimated from the allele counts. -/
def maf (col : List Cell) : ℚ :=
  (min (refCount col) (altCount col) : ℚ) / (2 * (nonMissCount col : ℚ))

/-- Hardy-Weinberg goodness of fit: chi-square distance between observed
genotype class counts and the Hardy-Weinberg expectation at the estimated
allele frequency. -/
def hweStat (col : List Cell) : ℚ :=
  let nm : ℚ := (nonMissCount col : ℚ)
  let n0 : ℚ := (col.countP (· == Cell.g0) : ℚ)
  let n1 : ℚ := (col.countP (· == Cell.g1) : ℚ)
  let n2 : ℚ := (col.countP (· == Cell.g2) : ℚ)
  let p : ℚ := (refCount col : ℚ) / (2 * nm)
  let q : ℚ := 1 - p
  let e2 := nm * p ^ 2
  let e1 := 2 * nm * p * q
  let e0 := nm * q ^ 2
  (n2 - e2) ^ 2 / e2 + (n1 - e1) ^ 2 / e1 + (n0 - e0) ^ 2 / e0

/-- Modelled from the spec: the per-marker missing-rate criterion
(`filterGeno`); an absent threshold skips the criterion entirely (§4.2);
`GenoFilter`'s implementation is not under the visible sources. -/
def genoCrit (col : List Cell) : Option ℚ → Bool
  | none => true
  | some t => decide (missingRate col ≤ t)

/-- Modelled from the spec: the minor-allele-frequency criterion
(`filterMAF`); a marker with no non-missing calls fails the criterion;
an absent threshold skips it entirely (§4.2). -/
def mafCrit (col : List Cell) : Option ℚ → Bool
  | none => true
  | some t => decide (nonMissCount col ≠ 0) && decide (t ≤ maf col)

/-- Modelled from the spec: the Hardy-Weinberg criterion (`filterHWE`);
a marker with no non-missing calls fails the criterion; an absent
threshold skips it entirely (§4.2). -/
def hweCrit (col : List Cell) : Option ℚ → Bool
  | none => true
  | some t => decide (nonMissCount col ≠ 0) && decide (hweStat col ≤ t)

/-- A marker is retained when every supplied marker-level criterion holds
on its kept-individual view. -/
def markerKeep (keepInds : Option (List Nat)) (fGeno fHWE fMAF : Option ℚ)
    (col : List Cell) : Bool :=
  genoCrit (applyKeep col keepInds) fGeno &&
    hweCrit (applyKeep col keepInds) fHWE &&
    mafCrit (applyKeep col keepInds) fMAF

/-- Missing rate of individual `i` over a set of marker columns. -/
def indMissingRate (cols : List (List Cell)) (i : Nat) : ℚ :=
  ((cols.countP fun col => decide (col[i]? = some Cell.miss)) : ℚ) /
    (cols.length : ℚ)

/-- Modelled from the spec: the per-individual missing-rate criterion
(`filterMind`), judged over the retained markers; an absent threshold
skips the criterion entirely (§4.2). -/
def mindCrit (cols : List (List Cell)) (i : Nat) : Option ℚ → Bool
  | none => true
  | some t => decide (indMissingRate cols i ≤ t)

/-- Individual (row) count of a marker-major matrix. -/
def nRows : List (List Cell) → Nat
  | [] => 0
  | col :: _ => col.length

/-- The individual index set considered by the filter: the pre-selected
keep-list when supplied, else every individual. -/
def indsConsidered (m : List (List Cell)) : Option (List Nat) → List Nat
  | none => List.range (nRows m)
  | some ks => ks

/-- Result of `GenoFilter`: retained marker and individual index sets. -/
structure FilterResult where
  keptMarkers : List Nat
  keptInds : List Nat
deriving DecidableEq, Repr

/-- Modelled from the spec: `GenoFilter` (§4.2); the implementation is not
under the visible sources.  The marker pass drops every marker violating a
supplied marker-level criterion, computed on the pre-selected individuals;
the individual pass then recomputes per-individual missing rates over the
retained markers only and drops the individuals whose rate exceeds the
supplied threshold.  Each absent threshold disables exactly its own
criterion; both passes run column-parallel over statically assigned
partitions. -/
def GenoFilter (m : List (List Cell)) (keepInds : Option (List Nat))
    (fGeno fHWE fMind fMAF : Option ℚ) (threads : Int) (_verbose : Bool) :
    FilterResult :=
  let keptPairs := parFilter threads
    (fun p => markerKeep keepInds fGeno fHWE fMAF p.2) m.enum
  let keptCols := keptPairs.map Prod.snd
  ⟨keptPairs.map Prod.fst,
    parFilter threads (fun i => mindCrit keptCols i fMind)
      (indsConsidered m keepInds)⟩

lemma GenoFilter_keptMarkers (m : List (List Cell)) (keepInds : Option (List Nat))
    (fGeno fHWE fMind fMAF : Option ℚ) (threads : Int) (v : Bool) :
    (GenoFilter m keepInds fGeno fHWE fMind fMAF threads v).keptMarkers =
      (m.enum.filter (fun p => markerKeep keepInds fGeno fHWE fMAF p.2)).map
        Prod.fst := by
  rw [GenoFilter, parFilter_eq]

lemma GenoFilter_keptInds (m : List (List Cell)) (keepInds : Option (List Nat))
    (fGeno fHWE fMind fMAF : Option ℚ) (threads : Int) (v : Bool) :
    (GenoFilter m keepInds fGeno fHWE fMind fMAF threads v).keptInds =
      (indsConsidered m keepInds).filter (fun i => mindCrit
        ((m.enum.filter (fun p => markerKeep keepInds fGeno fHWE fMAF p.2)).map
          Prod.snd) i fMind) := by
  rw [GenoFilter, parFilter_eq, parFilter_eq]

/-- C4: `GenoFilter` is monotonic in its thresholds: raising `filterMAF`
never adds a marker to the retained index set, and raising `filterGeno`
never removes one; all other parameters held fixed. -/
theorem GenoFilter_monotone (m : List (List Cell)) (keep : Option (List Nat))
    (fG fH fMind fMAF : Option ℚ) (t t' : ℚ) (th : Int) (v : Bool)
    (h : t ≤ t') :
    ((GenoFilter m keep fG fH fMind (some t') th v).keptMarkers ⊆
      (GenoFilter m keep fG fH fMind (some t) th v).keptMarkers) ∧
    ((GenoFilter m keep (some t) fH fMind fMAF th v).keptMarkers ⊆
      (GenoFilter m keep (some t') fH fMind fMAF th v).keptMarkers) := by
  constructor
  · rw [GenoFilter_keptMarkers, GenoFilter_keptMarkers]
    refine List.map_subset _ (List.Sublist.subset
      (List.monotone_filter_right _ (fun p hp => ?_)))
    simp only [markerKeep, mafCrit, Bool.and_eq_true, decide_eq_true_eq] at hp ⊢
    exact ⟨hp.1, hp.2.1, le_trans h hp.2.2⟩
  · rw [GenoFilter_keptMarkers, GenoFilter_keptMarkers]
    refine List.map_subset _ (List.Sublist.subset
      (List.monotone_filter_right _ (fun p hp => ?_)))
    simp only [markerKeep, genoCrit, Bool.and_eq_true, decide_eq_true_eq] at hp ⊢
    exact ⟨⟨le_trans hp.1.1 h, hp.1.2⟩, hp.2⟩

/-- Concrete instance of `GenoFilter_monotone` at thresholds 1/10 and
2/10 on a small matrix. -/
theorem GenoFilter_monotone_witness :
    ((1 : ℚ)/10 ≤ 2/10) ∧
    (((GenoFilter [[Cell.g0, Cell.g1], [Cell.miss, Cell.g2]] none none none
        none (some ((2 : ℚ)/10)) 2 false).keptMarkers ⊆
      (GenoFilter [[Cell.g0, Cell.g1], [Cell.miss, Cell.g2]] none none none
        none (some ((1 : ℚ)/10)) 2 false).keptMarkers) ∧
     ((GenoFilter [[Cell.g0, Cell.g1], [Cell.miss, Cell.g2]] none
        (some ((1 : ℚ)/10)) none none none 2 false).keptMarkers ⊆
      (GenoFilter [[Cell.g0, Cell.g1], [Cell.miss, Cell.g2]] none
        (some ((2 : ℚ)/10)) none none none 2 false).keptMarkers)) :=
  ⟨by norm_num,
    GenoFilter_monotone [[Cell.g0, Cell.g1], [Cell.miss, Cell.g2]] none none
      none none none (1/10) (2/10) 2 false (by norm_num)⟩

lemma map_snd_eq_filterMap_fst (s : List (Nat × α)) (f : Nat → Option α)
    (key : ∀ x ∈ s, f x.1 = some x.2) :
    s.map Prod.snd = (s.map Prod.fst).filterMap f := by
  induction s with
  | nil => rfl
  | cons x xs ih =>
      simp only [List.map_cons, List.filterMap_cons,
        key x (List.mem_cons_self x xs)]
      rw [ih (fun y hy => key y (List.mem_cons_of_mem x hy))]

lemma mem_map_fst_filter_enum (l : List α) (p : Nat × α → Bool) (j : Nat) :
    j ∈ (l.enum.filter p).map Prod.fst ↔ ∃ c, l[j]? = some c ∧ p (j, c) := by
  constructor
  · intro hj
    obtain ⟨⟨i, c⟩, hx, rfl⟩ := List.mem_map.mp hj
    exact ⟨c, List.mem_enum_iff_getElem?.mp (List.mem_of_mem_filter hx),
      List.of_mem_filter hx⟩
  · rintro ⟨c, hc, hp⟩
    exact List.mem_map.mpr ⟨(j, c),
      List.mem_filter.mpr ⟨List.mem_enum_iff_getElem?.mpr hc, hp⟩, rfl⟩

lemma markerKeep_split (keep : Option (List Nat)) (fG fH fMAF : Option ℚ)
    (col : List Cell) :
    markerKeep keep fG fH fMAF col =
      (markerKeep keep fG none none col &&
        markerKeep keep none fH none col &&
        markerKeep keep none none fMAF col) := by
  rw [markerKeep, markerKeep, markerKeep, markerKeep]
  cases genoCrit (applyKeep col keep) fG <;>
    cases hweCrit (applyKeep col keep) fH <;>
      cases mafCrit (applyKeep col keep) fMAF <;> rfl

/-- C5: the marker pass runs before the individual pass: the
per-individual missing rate that decides whether an individual is dropped
is computed over the markers that survived the marker-level filters only;
equivalently, the kept-individual set of a full run coincides with that of
a second run over the marker-filtered submatrix with every marker
criterion disabled. -/
theorem GenoFilter_marker_pass_first (m : List (List Cell)) (ks : List Nat)
    (fG fH fMind fMAF : Option ℚ) (th : Int) (v : Bool) :
    (GenoFilter m (some ks) fG fH fMind fMAF th v).keptInds =
      ks.filter (fun i => mindCrit
        ((GenoFilter m (some ks) fG fH fMind fMAF th v).keptMarkers.filterMap
          (fun j => m[j]?)) i fMind) ∧
    (GenoFilter m (some ks) fG fH fMind fMAF th v).keptInds =
      (GenoFilter
        ((GenoFilter m (some ks) fG fH fMind fMAF th v).keptMarkers.filterMap
          (fun j => m[j]?))
        (some ks) none none fMind none th v).keptInds := by
  have hsub : (GenoFilter m (some ks) fG fH fMind fMAF th v).keptMarkers.filterMap
      (fun j => m[j]?) =
      (m.enum.filter (fun p => markerKeep (some ks) fG fH fMAF p.2)).map
        Prod.snd := by
    rw [GenoFilter_keptMarkers]
    exact (map_snd_eq_filterMap_fst _ _ (fun x hx =>
      List.mem_enum_iff_getElem?.mp (List.mem_of_mem_filter hx))).symm
  have h1 : (GenoFilter m (some ks) fG fH fMind fMAF th v).keptInds =
      ks.filter (fun i => mindCrit
        ((m.enum.filter (fun p => markerKeep (some ks) fG fH fMAF p.2)).map
          Prod.snd) i fMind) := by
    rw [GenoFilter_keptInds]
    rfl
  refine ⟨by rw [h1, hsub], ?_⟩
  rw [h1, GenoFilter_keptInds, hsub]
  have htriv : ∀ p : Nat ×  List Cell,
      markerKeep (some ks) none none none p.2 = true := fun p => rfl
  have hall : (((m.enum.filter
      (fun p => markerKeep (some ks) fG fH fMAF p.2)).map Prod.snd).enum.filter
        (fun p => markerKeep (some ks) none none none p.2)) =
      ((m.enum.filter
        (fun p => markerKeep (some ks) fG fH fMAF p.2)).map Prod.snd).enum := by
    simp [htriv]
  rw [hall, List.enum_map_snd]
  rfl

/-- C8: each absent threshold disables exactly its own criterion: a marker
is retained by the full run exactly when it is retained by each
single-criterion run (so a marker is never dropped on account of an absent
criterion, and supplying one threshold does not change how the others are
evaluated); with no marker threshold supplied every marker is retained,
and with no individual threshold supplied every considered individual is
retained. -/
theorem GenoFilter_null_disables (m : List (List Cell))
    (keep : Option (List Nat)) (fG fH fMind fMAF : Option ℚ) (th : Int)
    (v : Bool) (j : Nat) :
    (j ∈ (GenoFilter m keep fG fH fMind fMAF th v).keptMarkers ↔
      (j ∈ (GenoFilter m keep fG none fMind none th v).keptMarkers ∧
        j ∈ (GenoFilter m keep none fH fMind none th v).keptMarkers ∧
        j ∈ (GenoFilter m keep none none fMind fMAF th v).keptMarkers)) ∧
    (GenoFilter m keep none none fMind none th v).keptMarkers =
      List.range m.length ∧
    (GenoFilter m keep fG fH none fMAF th v).keptInds =
      indsConsidered m keep := by
  refine ⟨?_, ?_, ?_⟩
  · simp only [GenoFilter_keptMarkers, mem_map_fst_filter_enum]
    constructor
    · rintro ⟨c, hc, hp⟩
      rw [markerKeep_split] at hp
      simp only [Bool.and_eq_true] at hp
      exact ⟨⟨c, hc, hp.1.1⟩, ⟨c, hc, hp.1.2⟩, ⟨c, hc, hp.2⟩⟩
    · rintro ⟨⟨c1, hc1, h1⟩, ⟨c2, hc2, h2⟩, ⟨c3, hc3, h3⟩⟩
      rw [hc1] at hc2 hc3
      obtain rfl := Option.some.inj hc2
      obtain rfl := Option.some.inj hc3
      refine ⟨c1, hc1, ?_⟩
      rw [markerKeep_split]
      simp only [Bool.and_eq_true]
      exact ⟨⟨h1, h2⟩, h3⟩
  · rw [GenoFilter_keptMarkers]
    have htriv : ∀ p : Nat × List Cell,
        markerKeep keep none none none p.2 = true := fun p => rfl
    simp [htriv, List.enum_map_fst]
  · rw [GenoFilter_keptInds]
    have htriv : ∀ (cols : List (List Cell)) (i : Nat),
        mindCrit cols i none = true := fun cols i => rfl
    simp [htriv]

/-! ## MatingSimulator (GenoMixer) -/

/-- Modelled from the spec: one allele copy drawn from a parental call;
a heterozygous call contributes either allele according to the random
draw; a missing call contributes no allele (§4.4). -/
def gamete (c : Cell) (coin : Bool) : Option Nat :=
  match c with
  | .g0 => some 0
  | .g1 => some (if coin then 1 else 0)
  | .g2 => some 1
  | .miss => none

/-- Dosage cell from the summed allele copies. -/
def dosageCell : Nat → Cell
  | 0 => .g0
  | 1 => .g1
  | _ => .g2

/-- Modelled from the spec: the offspring call at one marker is the sum of
one allele copy drawn from each parental call, with missing propagated
when either contributing parental call is missing (§4.4). -/
def offspringCell (s d : Cell) (cs cd : Bool) : Cell :=
  match gamete s cs, gamete d cd with
  | some x, some y => dosageCell (x + y)
  | _, _ => .miss

/-- Width of each recombination block for `nMrk` markers in `nBlock`
contiguous blocks. -/
def blockWidth (nMrk nBlock : Nat) : Nat :=
  max 1 ((nMrk + max 1 nBlock - 1) / max 1 nBlock)

/-- Recombination block holding marker `i`. -/
def blockOf (nMrk nBlock i : Nat) : Nat := i / blockWidth nMrk nBlock

/-- Modelled from the spec: one offspring column from one sire/dam column
pair; the marker axis splits into `nBlock` contiguous blocks and one
random draw per block selects the contributed allele copies for every
marker inside that block (§4.4).  `draws b` yields the sire-side and
dam-side draws of block `b`. -/
def mixColumn (sire dam : List Cell) (nBlock : Nat)
    (draws : Nat → Bool × Bool) : List Cell :=
  (sire.zip dam).enum.map (fun p =>
    offspringCell p.2.1 p.2.2
      (draws (blockOf sire.length nBlock p.1)).1
      (draws (blockOf sire.length nBlock p.1)).2)

/-- Column `i` of an individual-major matrix (empty when out of range). -/
def colAt (src : List (List Cell)) (i : Nat) : List Cell := src.getD i []

/-- Modelled from the spec: `GenoMixer` produces one offspring genotype
column per positionally matched sire/dam index pair, pair-parallel over
disjoint destination columns; `op` selects write vs. accumulate into the
destination and never changes the produced offspring calls; `draws k b`
gives the random choices of pair `k` in block `b` (§4.4); the
implementation is not under the visible sources. -/
def GenoMixer (src : List (List Cell)) (sirIdx damIdx : List Nat)
    (nBlock : Nat) (_op : Int) (threads : Int)
    (draws : Nat → Nat → Bool × Bool) : List (List Cell) :=
  parMap threads
    (fun q => mixColumn (colAt src q.2.1) (colAt src q.2.2) nBlock (draws q.1))
    (sirIdx.zip damIdx).enum

/-- The Mendelian possibility set: the offspring calls admissible under
the two parental dosages, with missing forced when either parental call is
missing. -/
def mendelOK (s d off : Cell) : Bool :=
  match s, d with
  | .miss, _ => off == .miss
  | _, .miss => off == .miss
  | .g0, .g0 => off == .g0
  | .g0, .g2 => off == .g1
  | .g2, .g0 => off == .g1
  | .g2, .g2 => off == .g2
  | .g0, .g1 => off == .g0 || off == .g1
  | .g1, .g0 => off == .g0 || off == .g1
  | .g1, .g2 => off == .g1 || off == .g2
  | .g2, .g1 => off == .g1 || off == .g2
  | .g1, .g1 => off == .g0 || off == .g1 || off == .g2

lemma offspringCell_mendelOK (s d : Cell) (cs cd : Bool) :
    mendelOK s d (offspringCell s d cs cd) = true := by
  cases s <;> cases d <;> cases cs <;> cases cd <;> rfl

lemma getElem?_zip_of_getElem? {l₁ : List α} {l₂ : List β} {i : Nat} {a : α}
    {b : β} (h1 : l₁[i]? = some a) (h2 : l₂[i]? = some b) :
    (l₁.zip l₂)[i]? = some (a, b) := by
  rw [← List.get?_eq_getElem?] at h1 h2 ⊢
  exact (List.get?_zip_eq_some l₁ l₂ (a, b) i).mpr ⟨h1, h2⟩

lemma mixColumn_getElem? (sire dam : List Cell) (nBlock : Nat)
    (draws : Nat → Bool × Bool) (i : Nat) (s d off : Cell)
    (hs : sire[i]? = some s) (hd : dam[i]? = some d)
    (hoff : (mixColumn sire dam nBlock draws)[i]? = some off) :
    mendelOK s d off = true := by
  rw [mixColumn, List.getElem?_map, List.getElem?_enum,
    getElem?_zip_of_getElem? hs hd] at hoff
  obtain rfl := Option.some.inj hoff
  exact offspringCell_mendelOK s d _ _

/-- C2: every offspring column produced by `GenoMixer` satisfies, at every
marker, the Mendelian possibility set implied by the two parental dosages:
parental dosages 0 and 2 force offspring dosage 1, 0 and 0 force 0, 2 and
2 force 2, and a missing contributing parental call forces a missing
offspring call — for every source matrix, pairing, block count, operation
mode, thread count and random draw family. -/
theorem GenoMixer_mendel (src : List (List Cell)) (sirIdx damIdx : List Nat)
    (nBlock : Nat) (op threads : Int) (draws : Nat → Nat → Bool × Bool)
    (k i si di : Nat) (s d off : Cell) (offCol : List Cell)
    (hsi : sirIdx[k]? = some si) (hdi : damIdx[k]? = some di)
    (hs : (colAt src si)[i]? = some s) (hd : (colAt src di)[i]? = some d)
    (hcol : (GenoMixer src sirIdx damIdx nBlock op threads draws)[k]?
      = some offCol)
    (hoff : offCol[i]? = some off) :
    mendelOK s d off = true := by
  rw [GenoMixer, parMap_eq, List.getElem?_map, List.getElem?_enum,
    getElem?_zip_of_getElem? hsi hdi] at hcol
  obtain rfl := Option.some.inj hcol
  exact mixColumn_getElem? _ _ nBlock _ i s d off hs hd hoff

/-- Concrete instance of `GenoMixer_mendel`: one sire/dam pair with
parental dosages 0 and 2 at the first marker yields offspring dosage 1
there. -/
theorem GenoMixer_mendel_witness :
    ([0][0]? = some 0 ∧ [1][0]? = some 1 ∧
      (colAt [[Cell.g0, Cell.g2], [Cell.g2, Cell.g2]] 0)[0]? = some Cell.g0 ∧
      (colAt [[Cell.g0, Cell.g2], [Cell.g2, Cell.g2]] 1)[0]? = some Cell.g2 ∧
      (GenoMixer [[Cell.g0, Cell.g2], [Cell.g2, Cell.g2]] [0] [1] 1 0 2
        (fun _ _ => (true, false)))[0]? = some [Cell.g1, Cell.g2] ∧
      [Cell.g1, Cell.g2][0]? = some Cell.g1) ∧
    mendelOK Cell.g0 Cell.g2 Cell.g1 = true :=
  ⟨⟨by decide, by decide, by decide, by decide, by decide, by decide⟩,
    GenoMixer_mendel [[Cell.g0, Cell.g2], [Cell.g2, Cell.g2]] [0] [1] 1 0 2
      (fun _ _ => (true, false)) 0 0 0 1 Cell.g0 Cell.g2 Cell.g1
      [Cell.g1, Cell.g2] (by decide) (by decide) (by decide) (by decide)
      (by decide) (by decide)⟩

/-! ## PedigreeResolver (PedigreeCorrector) -/

/-- A recorded pedigree row: offspring identifier with putative sire and
dam identifiers. -/
structure PedRecord where
  id : String
  sire : String
  dam : String
deriving DecidableEq, Repr

/-- Resolution status of one parent slot. -/
inductive ParentStatus where
  | resolved
  | unchanged
  | unresolved
deriving DecidableEq, Repr

/-- A corrected pedigree row: possibly replaced sire/dam identifiers and a
resolution status per parent slot. -/
structure PedOut where
  id : String
  sire : String
  dam : String
  sireStatus : ParentStatus
  damStatus : ParentStatus
deriving DecidableEq, Repr

/-- The genotype column recorded for an identifier, when genotyped;
`rawGenoID` indexes the matrix columns positionally. -/
def genoOf (rawGenoID : List String) (m : List (List Cell)) (x : String) :
    Option (List Cell) :=
  ((rawGenoID.zip m).find? (fun p => p.1 == x)).map Prod.snd

/-- Doubly homozygous for opposite alleles: a Mendelian impossibility
under true parentage. -/
def oppositeHom (a b : Cell) : Bool :=
  (a == Cell.g0 && b == Cell.g2) || (a == Cell.g2 && b == Cell.g0)

/-- Modelled from the spec: the exclusion score of a candidate against an
offspring: the fraction of markers at which the two are doubly homozygous
for opposite alleles (§4.5); `PedigreeCorrector`'s implementation is not
under the visible sources. -/
def exclScore (off cand : List Cell) : ℚ :=
  ((off.zip cand).countP (fun p => oppositeHom p.1 p.2) : ℚ) /
    (off.length : ℚ)

/-- Modelled from the spec: the candidate pool of one offspring: the
explicit pool when supplied, else all genotyped individuals; the offspring
itself is excluded, only genotyped candidates are scored, and when birth
dates are supplied a candidate must strictly predate the offspring (the
strict-versus-inclusive choice is an open question of the spec) (§4.5). -/
def candPool (rawGenoID : List String) (m : List (List Cell))
    (cand : Option (List String)) (birth : Option (String → Int))
    (offID : String) : List String :=
  (match cand with
    | none => rawGenoID
    | some cs => cs).filter (fun c =>
      c != offID && (genoOf rawGenoID m c).isSome &&
        (match birth with
          | none => true
          | some b => decide (b c < b offID)))

/-- Modelled from the spec: the survivors of the exclusion step, each
paired with its exclusion score (§4.5, steps 2-3). -/
def survivors (rawGenoID : List String) (m : List (List Cell))
    (offG : List Cell) (pool : List String) (exclThres : ℚ) :
    List (String × ℚ) :=
  (pool.filterMap (fun c => (genoOf rawGenoID m c).map
    (fun g => (c, exclScore offG g)))).filter
      (fun p => decide (p.2 ≤ exclThres))

/-- Modelled from the spec: parent selection among the survivors: the
lowest-scoring survivor is assigned when its score is at or below the
assignment threshold and it is unambiguous — no other survivor ties at or
below its score (§4.5, step 4; the exact near-tie rule is an open question
of the spec, modelled as an exact-tie test). -/
def resolveParent (rawGenoID : List String) (m : List (List Cell))
    (offG : List Cell) (pool : List String) (exclThres assignThres : ℚ) :
    Option String :=
  let surv := survivors rawGenoID m offG pool exclThres
  match surv.argmin Prod.snd with
  | none => none
  | some best =>
      if decide (best.2 ≤ assignThres) &&
          (surv.countP (fun p => decide (p.2 ≤ best.2)) == 1) then
        some best.1
      else none

/-- Modelled from the spec (§4.5, step 5): the corrected identifier and
status of one parent slot; an accepted candidate equal to the recorded
parent keeps the record unchanged, a different accepted candidate replaces
it, and no accepted candidate leaves the recorded parent untouched but
flagged unresolved. -/
def correctParent (rawGenoID : List String) (m : List (List Cell))
    (offG : List Cell) (pool : List String) (exclThres assignThres : ℚ)
    (recorded : String) : String × ParentStatus :=
  match resolveParent rawGenoID m offG pool exclThres assignThres with
  | none => (recorded, .unresolved)
  | some p => if p == recorded then (recorded, .unchanged) else (p, .resolved)

/-- Modelled from the spec: correct one pedigree record; an offspring
without genotype data is marked unresolved on both slots with its recorded
parents left untouched; sire and dam resolution run as two independent
instances (§4.5). -/
def correctRecord (rawGenoID : List String) (m : List (List Cell))
    (candSirID candDamID : Option (List String)) (exclThres assignThres : ℚ)
    (birth : Option (String → Int)) (r : PedRecord) : PedOut :=
  match genoOf rawGenoID m r.id with
  | none => ⟨r.id, r.sire, r.dam, .unresolved, .unresolved⟩
  | some g =>
      let ps := correctParent rawGenoID m g
        (candPool rawGenoID m candSirID birth r.id) exclThres assignThres r.sire
      let pd := correctParent rawGenoID m g
        (candPool rawGenoID m candDamID birth r.id) exclThres assignThres r.dam
      ⟨r.id, ps.1, pd.1, ps.2, pd.2⟩

/-- Modelled from the spec: `PedigreeCorrector` corrects every pedigree
record independently, offspring-parallel over statically assigned
partitions (§4.5); the implementation is not under the visible sources. -/
def PedigreeCorrector (m : List (List Cell)) (rawGenoID : List String)
    (rawPed : List PedRecord) (candSirID candDamID : Option (List String))
    (exclThres assignThres : ℚ) (birthDate : Option (String → Int))
    (threads : Int) (_verbose : Bool) : List PedOut :=
  parMap threads
    (correctRecord rawGenoID m candSirID candDamID exclThres assignThres
      birthDate)
    rawPed

lemma PedigreeCorrector_getElem? (m : List (List Cell))
    (rawGenoID : List String) (rawPed : List PedRecord)
    (candSirID candDamID : Option (List String)) (eT aT : ℚ)
    (birth : Option (String → Int)) (th : Int) (v : Bool) (k : Nat)
    (r : PedRecord) (hr : rawPed[k]? = some r) :
    (PedigreeCorrector m rawGenoID rawPed candSirID candDamID eT aT birth
      th v)[k]? =
      some (correctRecord rawGenoID m candSirID candDamID eT aT birth r) := by
  rw [PedigreeCorrector, parMap_eq, List.getElem?_map, hr, Option.map_some']

/-- C7: a pedigree record whose offspring lacks genotype data is returned
marked unresolved on both parent slots with its recorded parents left
untouched, and a record whose sire candidate pool is empty (for example
after birth-date filtering) is returned with its recorded sire untouched
and marked unresolved — independent of the exclusion and assignment
thresholds, as an expected outcome rather than an error. -/
theorem PedigreeCorrector_unresolved (m : List (List Cell))
    (rawGenoID : List String) (rawPed : List PedRecord)
    (candSirID candDamID : Option (List String)) (eT aT : ℚ)
    (birth : Option (String → Int)) (th : Int) (v : Bool) (k : Nat)
    (r : PedRecord) (hr : rawPed[k]? = some r) :
    (genoOf rawGenoID m r.id = none →
      (PedigreeCorrector m rawGenoID rawPed candSirID candDamID eT aT birth
        th v)[k]? =
        some ⟨r.id, r.sire, r.dam, .unresolved, .unresolved⟩) ∧
    (∀ g, genoOf rawGenoID m r.id = some g →
      candPool rawGenoID m candSirID birth r.id = [] →
      ((PedigreeCorrector m rawGenoID rawPed candSirID candDamID eT aT birth
        th v)[k]?).map (fun o => (o.sire, o.sireStatus)) =
        some (r.sire, ParentStatus.unresolved)) := by
  have hk := PedigreeCorrector_getElem? m rawGenoID rawPed candSirID candDamID
    eT aT birth th v k r hr
  constructor
  · intro hg
    rw [hk]
    simp only [correctRecord, hg]
  · intro g hg hpool
    rw [hk]
    simp only [correctRecord, hg, hpool, Option.map_some']
    simp [correctParent, resolveParent, survivors]

/-- Concrete instance of `PedigreeCorrector_unresolved`: an offspring
without genotype data, and a genotyped offspring whose explicit sire pool
is empty. -/
theorem PedigreeCorrector_unresolved_witness :
    (([⟨"x", "s", "d"⟩, ⟨"a", "s", "d"⟩] : List PedRecord)[0]? =
        some ⟨"x", "s", "d"⟩ ∧
      genoOf ["a"] [[Cell.g0]] "x" = none ∧
      (PedigreeCorrector [[Cell.g0]] ["a"]
        [⟨"x", "s", "d"⟩, ⟨"a", "s", "d"⟩] (some []) none 0 1 none 2
        false)[0]? = some ⟨"x", "s", "d", .unresolved, .unresolved⟩) ∧
    (([⟨"x", "s", "d"⟩, ⟨"a", "s", "d"⟩] : List PedRecord)[1]? =
        some ⟨"a", "s", "d"⟩ ∧
      genoOf ["a"] [[Cell.g0]] "a" = some [Cell.g0] ∧
      candPool ["a"] [[Cell.g0]] (some []) none "a" = [] ∧
      ((PedigreeCorrector [[Cell.g0]] ["a"]
        [⟨"x", "s", "d"⟩, ⟨"a", "s", "d"⟩] (some []) none 0 1 none 2
        false)[1]?).map (fun o => (o.sire, o.sireStatus)) =
        some ("s", ParentStatus.unresolved)) :=
  ⟨⟨by decide, by decide,
      (PedigreeCorrector_unresolved [[Cell.g0]] ["a"]
        [⟨"x", "s", "d"⟩, ⟨"a", "s", "d"⟩] (some []) none 0 1 none 2 false 0
        ⟨"x", "s", "d"⟩ (by decide)).1 (by decide)⟩,
    ⟨by decide, by decide, by decide,
      (PedigreeCorrector_unresolved [[Cell.g0]] ["a"]
        [⟨"x", "s", "d"⟩, ⟨"a", "s", "d"⟩] (some []) none 0 1 none 2 false 1
        ⟨"a", "s", "d"⟩ (by decide)).2 [Cell.g0] (by decide) (by decide)⟩⟩

lemma exclScore_nonneg (off cand : List Cell) : 0 ≤ exclScore off cand :=
  div_nonneg (Nat.cast_nonneg _) (Nat.cast_nonneg _)

lemma mem_survivors {rawGenoID : List String} {m : List (List Cell)}
    {offG : List Cell} {pool : List String} {eT : ℚ} {q : String × ℚ} :
    q ∈ survivors rawGenoID m offG pool eT ↔
      (∃ c g, c ∈ pool ∧ genoOf rawGenoID m c = some g ∧
        q = (c, exclScore offG g)) ∧ q.2 ≤ eT := by
  rw [survivors, List.mem_filter, List.mem_filterMap]
  simp only [Option.map_eq_some', decide_eq_true_eq]
  constructor
  · rintro ⟨⟨c, hc, g, hg, rfl⟩, hle⟩
    exact ⟨⟨c, g, hc, hg, rfl⟩, hle⟩
  · rintro ⟨⟨c, g, hc, hg, rfl⟩, hle⟩
    exact ⟨⟨c, hc, g, hg, rfl⟩, hle⟩

lemma countP_filterMap (f : α → Option β) (p : β → Bool) (l : List α) :
    (l.filterMap f).countP p =
      l.countP (fun a => ((f a).map p).getD false) := by
  induction l with
  | nil => rfl
  | cons x xs ih =>
      rw [List.filterMap_cons]
      cases hfx : f x with
      | none => simp [List.countP_cons, hfx, ih]
      | some b => simp [List.countP_cons, hfx, ih]

/-- C6: the parent assigned by the resolver is always a surviving
candidate of lowest exclusion score, accepted only when that score is at
or below the assignment threshold and no other survivor ties it; and in
particular a candidate present once in the pool with exclusion score zero
and every rival scoring strictly positive is assigned for every
nonnegative exclusion threshold and positive assignment threshold, with
the corrected record carrying it as sire. -/
theorem PedigreeCorrector_assigns_best (m : List (List Cell))
    (rawGenoID : List String) (rawPed : List PedRecord)
    (candSirID candDamID : Option (List String)) (eT aT : ℚ)
    (birth : Option (String → Int)) (th : Int) (v : Bool) (k : Nat)
    (r : PedRecord) (g gc : List Cell) (c : String)
    (hr : rawPed[k]? = some r) (hg : genoOf rawGenoID m r.id = some g)
    (hc : c ∈ candPool rawGenoID m candSirID birth r.id)
    (hcount : (candPool rawGenoID m candSirID birth r.id).count c = 1)
    (hgc : genoOf rawGenoID m c = some gc)
    (hscore : exclScore g gc = 0)
    (heT : 0 ≤ eT) (haT : 0 < aT)
    (hothers : ∀ c' g', c' ∈ candPool rawGenoID m candSirID birth r.id →
      c' ≠ c → genoOf rawGenoID m c' = some g' → 0 < exclScore g g') :
    (∀ (offG : List Cell) (pool : List String) (eT' aT' : ℚ) (p : String),
      resolveParent rawGenoID m offG pool eT' aT' = some p →
      ∃ sc, (p, sc) ∈ survivors rawGenoID m offG pool eT' ∧ sc ≤ aT' ∧
        (∀ q ∈ survivors rawGenoID m offG pool eT', sc ≤ q.2) ∧
        (survivors rawGenoID m offG pool eT').countP
          (fun q => decide (q.2 ≤ sc)) = 1) ∧
    resolveParent rawGenoID m g (candPool rawGenoID m candSirID birth r.id)
      eT aT = some c ∧
    ((PedigreeCorrector m rawGenoID rawPed candSirID candDamID eT aT birth
      th v)[k]?).map (fun o => (o.sire, o.sireStatus)) =
      some (c, if c == r.sire then ParentStatus.unchanged
        else ParentStatus.resolved) := by
  have hsound : ∀ (offG : List Cell) (pool : List String) (eT' aT' : ℚ)
      (p : String),
      resolveParent rawGenoID m offG pool eT' aT' = some p →
      ∃ sc, (p, sc) ∈ survivors rawGenoID m offG pool eT' ∧ sc ≤ aT' ∧
        (∀ q ∈ survivors rawGenoID m offG pool eT', sc ≤ q.2) ∧
        (survivors rawGenoID m offG pool eT').countP
          (fun q => decide (q.2 ≤ sc)) = 1 := by
    intro offG pool eT' aT' p hp
    simp only [resolveParent] at hp
    split at hp
    · exact absurd hp (by simp)
    · rename_i best hm
      split at hp
      · rename_i hcond
        obtain rfl := Option.some.inj hp
        simp only [Bool.and_eq_true, decide_eq_true_eq, beq_iff_eq] at hcond
        refine ⟨best.2, ?_, hcond.1, ?_, hcond.2⟩
        · exact List.argmin_mem (Option.mem_def.mpr hm)
        · exact fun q hq =>
            List.le_of_mem_argmin hq (Option.mem_def.mpr hm)
      · exact absurd hp (by simp)
  refine ⟨hsound, ?_⟩
  have hcs : (c, (0 : ℚ)) ∈ survivors rawGenoID m g
      (candPool rawGenoID m candSirID birth r.id) eT :=
    mem_survivors.mpr ⟨⟨c, gc, hc, hgc, by rw [hscore]⟩, heT⟩
  obtain ⟨best, hm⟩ : ∃ best, (survivors rawGenoID m g
      (candPool rawGenoID m candSirID birth r.id) eT).argmin Prod.snd
        = some best := by
    cases hmm : (survivors rawGenoID m g
        (candPool rawGenoID m candSirID birth r.id) eT).argmin Prod.snd with
    | none =>
        rw [List.argmin_eq_none] at hmm
        rw [hmm] at hcs
        exact absurd hcs (List.not_mem_nil _)
    | some b => exact ⟨b, rfl⟩
  have hbmem := List.argmin_mem (Option.mem_def.mpr hm)
  obtain ⟨⟨c₀, g₀, hc₀, hg₀, hbe⟩, _⟩ := mem_survivors.mp hbmem
  have hb2le : best.2 ≤ 0 :=
    List.le_of_mem_argmin hcs (Option.mem_def.mpr hm)
  have hs₀ : exclScore g g₀ = 0 := by
    refine le_antisymm ?_ (exclScore_nonneg g g₀)
    have : best.2 = exclScore g g₀ := by rw [hbe]
    rw [← this]
    exact hb2le
  have hc₀c : c₀ = c := by
    by_contra hne
    exact absurd hs₀ (ne_of_gt (hothers c₀ g₀ hc₀ hne hg₀))
  have hbest : best = (c, (0 : ℚ)) := by rw [hbe, hc₀c, hs₀]
  have hcnt : (survivors rawGenoID m g
      (candPool rawGenoID m candSirID birth r.id) eT).countP
        (fun q => decide (q.2 ≤ best.2)) = 1 := by
    rw [survivors, List.countP_filter, countP_filterMap]
    have hpt : ∀ a ∈ candPool rawGenoID m candSirID birth r.id,
        (((genoOf rawGenoID m a).map
          (fun g' => (a, exclScore g g'))).map
            (fun q => decide (q.2 ≤ best.2) && decide (q.2 ≤ eT))).getD false
          = (a == c) := by
      intro a ha
      cases hga : genoOf rawGenoID m a with
      | none =>
          have hac : a ≠ c := fun h => by rw [h, hgc] at hga; cases hga
          simp [hac]
      | some g' =>
          by_cases hac : a = c
          · subst hac
            have hggc : g' = gc := Option.some.inj (hga.symm.trans hgc)
            subst hggc
            simp [hbest, hscore, heT]
          · have hpos := hothers a g' ha hac hga
            have hnle : ¬(exclScore g g' ≤ best.2) := by
              rw [hbest]
              exact not_le.mpr hpos
            simp [hnle, hac]
    have hcpc : (candPool rawGenoID m candSirID birth r.id).countP
        (fun a => (((genoOf rawGenoID m a).map
          (fun g' => (a, exclScore g g'))).map
            (fun q => decide (q.2 ≤ best.2) && decide (q.2 ≤ eT))).getD false)
        = (candPool rawGenoID m candSirID birth r.id).countP (· == c) :=
      List.countP_congr (fun a ha => by rw [hpt a ha])
    rw [hcpc]
    exact hcount
  have hres : resolveParent rawGenoID m g
      (candPool rawGenoID m candSirID birth r.id) eT aT = some c := by
    have h1 : decide (best.2 ≤ aT) = true := by
      rw [hbest]
      exact decide_eq_true (le_of_lt haT)
    simp only [resolveParent, hm]
    rw [if_pos (by rw [h1, hcnt]; rfl)]
    rw [hbest]
  refine ⟨hres, ?_⟩
  rw [PedigreeCorrector_getElem? m rawGenoID rawPed candSirID candDamID eT aT
    birth th v k r hr, Option.map_some']
  simp only [correctRecord, hg, correctParent, hres]
  by_cases hcr : c = r.sire
  · simp [hcr]
  · simp [hcr]

/-- Concrete instance of `PedigreeCorrector_assigns_best`: three genotyped
individuals, one candidate sire with exclusion score zero and one rival
with a strictly positive score; the zero-score candidate is assigned. -/
theorem PedigreeCorrector_assigns_best_witness :
    ((0 : ℚ) ≤ 1 ∧ (0 : ℚ) < 1 ∧ exclScore [Cell.g0] [Cell.g0] = 0) ∧
    (resolveParent ["o", "a", "b"] [[Cell.g0], [Cell.g0], [Cell.g2]]
        [Cell.g0]
        (candPool ["o", "a", "b"] [[Cell.g0], [Cell.g0], [Cell.g2]]
          (some ["a", "b"]) none "o") 1 1 = some "a" ∧
      ((PedigreeCorrector [[Cell.g0], [Cell.g0], [Cell.g2]] ["o", "a", "b"]
        [⟨"o", "s", "d"⟩] (some ["a", "b"]) none 1 1 none 2
        false)[0]?).map (fun o => (o.sire, o.sireStatus)) =
        some ("a", if "a" == "s" then ParentStatus.unchanged
          else ParentStatus.resolved)) :=
  ⟨⟨by decide, by decide,
      by simp [exclScore, oppositeHom, List.countP_cons, List.countP_nil]⟩,
    (PedigreeCorrector_assigns_best [[Cell.g0], [Cell.g0], [Cell.g2]]
      ["o", "a", "b"] [⟨"o", "s", "d"⟩] (some ["a", "b"]) none 1 1 none 2
      false 0 ⟨"o", "s", "d"⟩ [Cell.g0] [Cell.g0] "a" (by decide) (by decide)
      (by decide) (by decide) (by decide)
      (by simp [exclScore, oppositeHom, List.countP_cons, List.countP_nil])
      (by decide) (by decide)
      (by
        intro c' g' hc' hne hg'
        rw [show candPool ["o", "a", "b"]
            [[Cell.g0], [Cell.g0], [Cell.g2]] (some ["a", "b"]) none "o"
            = ["a", "b"] from by decide] at hc'
        rcases List.mem_cons.mp hc' with rfl | h2
        · exact absurd rfl hne
        · rcases List.mem_cons.mp h2 with rfl | h3
          · rw [show genoOf ["o", "a", "b"]
              [[Cell.g0], [Cell.g0], [Cell.g2]] "b" = some [Cell.g2]
              from by decide] at hg'
            obtain rfl := Option.some.inj hg'
            simp [exclScore, oppositeHom, List.countP_cons, List.countP_nil]
          · exact absurd h3 (List.not_mem_nil c'))).2⟩

/-! ## MatrixMixer (Mat2BigMat / BigMat2BigMat) -/

/-- Dosage value of a non-missing call. -/
def cellDosage : Cell → Option Nat
  | .g0 => some 0
  | .g1 => some 1
  | .g2 => some 2
  | .miss => none

/-- Modelled from the spec: the closed elementwise operation set of the
matrix merge: assign, add, subtract on the dosage scale, with missing
absorbing for the arithmetic combinators (§4.3). -/
def mergeCell (op : Int) (dst src : Cell) : Cell :=
  if op = 1 then src
  else
    match cellDosage dst, cellDosage src with
    | some a, some b =>
        if op = 2 then dosageCell (min 2 (a + b))
        else dosageCell (a - b)
    | _, _ => .miss

/-- Source column merged into destination column `j` under the optional
destination column index set: positional without it, else the source
column at the position of `j` in the index set (§4.3). -/
def srcColFor (colIdx : Option (List Nat)) (src : List (List Cell))
    (j : Nat) : Option (List Cell) :=
  match colIdx with
  | none => src[j]?
  | some idx => (idx.findIdx? (· == j)).bind (fun pos => src[pos]?)

/-- Modelled from the spec: `Mat2BigMat` merges an in-memory source matrix
elementwise into the destination, restricted to the optional destination
column index set, column-parallel over disjoint destination columns
(§4.3); the implementation is not under the visible sources. -/
def Mat2BigMat (dst : List (List Cell)) (mat : List (List Cell))
    (colIdx : Option (List Nat)) (op : Int) (threads : Int) :
    List (List Cell) :=
  parMap threads (fun p =>
    match srcColFor colIdx mat p.1 with
    | none => p.2
    | some src => List.zipWith (mergeCell op) p.2 src) dst.enum

/-- Modelled from the spec: `BigMat2BigMat` is the same elementwise merge
with a disk-backed source (§4.3); in this embedding both sources are
matrices, so it runs the same merge core. -/
def BigMat2BigMat (dst : List (List Cell)) (src : List (List Cell))
    (colIdx : Option (List Nat)) (op : Int) (threads : Int) :
    List (List Cell) :=
  parMap threads (fun p =>
    match srcColFor colIdx src p.1 with
    | none => p.2
    | some s => List.zipWith (mergeCell op) p.2 s) dst.enum

/-- C9: every operation that takes a thread-count parameter tolerates a
non-positive value: the call falls back to single-threaded execution and
produces exactly the result of the same call with thread count 1 — for
the encoder, the decoder, the filter, both merges, the mating simulator,
both missing-value scans, and the pedigree corrector. -/
theorem nonpositive_threads_fallback (t : Int) (_ht : t ≤ 0)
    (m dst mat src : List (List Cell)) (bed : List Nat) (n nMrk ind : Nat)
    (maxLine : Int) (v : Bool) (keep : Option (List Nat))
    (fG fH fMind fMAF : Option ℚ) (colIdx : Option (List Nat)) (op : Int)
    (sirIdx damIdx : List Nat) (nBlock : Nat)
    (draws : Nat → Nat → Bool × Bool) (rawGenoID : List String)
    (rawPed : List PedRecord) (candS candD : Option (List String))
    (eT aT : ℚ) (birth : Option (String → Int)) :
    write_bfile m t v = write_bfile m 1 v ∧
    read_bfile bed n nMrk maxLine t v = read_bfile bed n nMrk maxLine 1 v ∧
    GenoFilter m keep fG fH fMind fMAF t v
      = GenoFilter m keep fG fH fMind fMAF 1 v ∧
    Mat2BigMat dst mat colIdx op t = Mat2BigMat dst mat colIdx op 1 ∧
    BigMat2BigMat dst src colIdx op t = BigMat2BigMat dst src colIdx op 1 ∧
    GenoMixer src sirIdx damIdx nBlock op t draws
      = GenoMixer src sirIdx damIdx nBlock op 1 draws ∧
    hasNA m t = hasNA m 1 ∧
    hasNABed bed ind maxLine t v = hasNABed bed ind maxLine 1 v ∧
    PedigreeCorrector m rawGenoID rawPed candS candD eT aT birth t v
      = PedigreeCorrector m rawGenoID rawPed candS candD eT aT birth 1 v := by
  refine ⟨?_, ?_, ?_, ?_, ?_, ?_, ?_, ?_, ?_⟩
  · rw [write_bfile, write_bfile, parMap_eq, parMap_eq]
  · match bed with
    | [] => rfl
    | [_] => rfl
    | [_, _] => rfl
    | m1 :: m2 :: mode :: body =>
        by_cases hP : (m1 = bedMagic1 ∧ m2 = bedMagic2 ∧ mode = bedMode ∧
            body.length = nMrk * bytesPerCol n)
        · simp only [read_bfile, if_pos hP, parMap_eq]
        · simp only [read_bfile, if_neg hP]
  · simp only [GenoFilter, parFilter_eq]
  · rw [Mat2BigMat, Mat2BigMat, parMap_eq, parMap_eq]
  · rw [BigMat2BigMat, BigMat2BigMat, parMap_eq, parMap_eq]
  · rw [GenoMixer, GenoMixer, parMap_eq, parMap_eq]
  · rw [hasNA, hasNA, parAny_eq, parAny_eq]
  · match bed with
    | [] => rfl
    | [_] => rfl
    | [_, _] => rfl
    | m1 :: m2 :: mode :: body =>
        by_cases hP : (m1 = bedMagic1 ∧ m2 = bedMagic2 ∧ mode = bedMode ∧
            body.length % bytesPerCol ind = 0)
        · simp only [hasNABed, if_pos hP, parAny_eq]
        · simp only [hasNABed, if_neg hP]
  · rw [PedigreeCorrector, PedigreeCorrector, parMap_eq, parMap_eq]

/-- Concrete instance of `nonpositive_threads_fallback` at thread
count `-2`. -/
theorem nonpositive_threads_fallback_witness :
    (-2 : Int) ≤ 0 ∧
    (write_bfile [[Cell.g0]] (-2) false = write_bfile [[Cell.g0]] 1 false ∧
      read_bfile [] 1 1 10 (-2) false = read_bfile [] 1 1 10 1 false ∧
      GenoFilter [[Cell.g0]] none none none none none (-2) false
        = GenoFilter [[Cell.g0]] none none none none none 1 false ∧
      Mat2BigMat [[Cell.g0]] [[Cell.g1]] none 1 (-2)
        = Mat2BigMat [[Cell.g0]] [[Cell.g1]] none 1 1 ∧
      BigMat2BigMat [[Cell.g0]] [[Cell.g1]] none 1 (-2)
        = BigMat2BigMat [[Cell.g0]] [[Cell.g1]] none 1 1 ∧
      GenoMixer [[Cell.g1]] [0] [0] 1 0 (-2) (fun _ _ => (true, true))
        = GenoMixer [[Cell.g1]] [0] [0] 1 0 1 (fun _ _ => (true, true)) ∧
      hasNA [[Cell.g0]] (-2) = hasNA [[Cell.g0]] 1 ∧
      hasNABed [] 1 10 (-2) false = hasNABed [] 1 10 1 false ∧
      PedigreeCorrector [[Cell.g0]] ["a"] [] none none 0 1 none (-2) false
        = PedigreeCorrector [[Cell.g0]] ["a"] [] none none 0 1 none 1
          false) :=
  ⟨by decide,
    nonpositive_threads_fallback (-2) (by decide) [[Cell.g0]] [[Cell.g0]]
      [[Cell.g1]] [[Cell.g1]] [] 1 1 1 10 false none none none none none
      none 1 [0] [0] 1 (fun _ _ => (true, true)) ["a"] [] none none 0 1
      none⟩

/-! ## Registration table

Embedded from `src/src/RcppExports.cpp`: the wrapper declarations (their
parameter lists), the `CallEntries` table (lines 151-162) and
`R_init_simer` (lines 164-167). -/

/-- One registered native entry point: exported name and argument count. -/
structure CallEntry where
  entryName : String
  arity : Nat
deriving DecidableEq, Repr

/-- Parameter list of the declared `write_bfile` wrapper (line 15). -/
def write_bfileParams : List String :=
  ["pBigMat", "bed_file", "threads", "verbose"]

/-- Parameter list of the declared `read_bfile` wrapper (line 28). -/
def read_bfileParams : List String :=
  ["bed_file", "pBigMat", "maxLine", "threads", "verbose"]

/-- Parameter list of the declared `GenoFilter` wrapper (line 42). -/
def GenoFilterParams : List String :=
  ["pBigMat", "keepInds", "filterGeno", "filterHWE", "filterMind",
    "filterMAF", "threads", "verbose"]

/-- Parameter list of the declared `Mat2BigMat` wrapper (line 60). -/
def Mat2BigMatParams : List String :=
  ["pBigMat", "mat", "colIdx", "op", "threads"]

/-- Parameter list of the declared `BigMat2BigMat` wrapper (line 74). -/
def BigMat2BigMatParams : List String :=
  ["pBigMat", "pBigmat", "colIdx", "op", "threads"]

/-- Parameter list of the declared `GenoMixer` wrapper (line 88). -/
def GenoMixerParams : List String :=
  ["pBigMat", "pBigmat", "sirIdx", "damIdx", "nBlock", "op", "threads"]

/-- Parameter list of the declared `hasNA` wrapper (line 104). -/
def hasNAParams : List String := ["pBigMat", "threads"]

/-- Parameter list of the declared `hasNABed` wrapper (line 116). -/
def hasNABedParams : List String :=
  ["bed_file", "ind", "maxLine", "threads", "verbose"]

/-- Parameter list of the declared `PedigreeCorrector` wrapper
(line 131). -/
def PedigreeCorrectorParams : List String :=
  ["pBigMat", "rawGenoID", "rawPed", "candSirID", "candDamID", "exclThres",
    "assignThres", "birthDate", "threads", "verbose"]

/-- The `CallEntries` registration table (lines 151-162), excluding the
null terminator. -/
def CallEntries : List CallEntry :=
  [⟨"_simer_write_bfile", 4⟩,
    ⟨"_simer_read_bfile", 5⟩,
    ⟨"_simer_GenoFilter", 8⟩,
    ⟨"_simer_Mat2BigMat", 5⟩,
    ⟨"_simer_BigMat2BigMat", 5⟩,
    ⟨"_simer_GenoMixer", 7⟩,
    ⟨"_simer_hasNA", 2⟩,
    ⟨"_simer_hasNABed", 5⟩,
    ⟨"_simer_PedigreeCorrector", 10⟩]

/-- State installed by library initialization: the registered call
routines and whether dynamic symbol lookup stays enabled. -/
structure DllRegistration where
  callRoutines : List CallEntry
  useDynamicSymbols : Bool
deriving DecidableEq, Repr

/-- `R_init_simer` (lines 164-167): registers `CallEntries` and calls
`R_useDynamicSymbols(dll, FALSE)`. -/
def R_init_simer : DllRegistration := ⟨CallEntries, false⟩

/-- C10: library initialization registers exactly the nine named native
entry points with argument counts 4, 5, 8, 5, 5, 7, 2, 5 and 10, each
equal to the parameter count of its declared wrapper, and disables
dynamic symbol lookup so no other native routine is reachable by name. -/
theorem R_init_simer_registration :
    R_init_simer.callRoutines.map (fun e => (e.entryName, e.arity)) =
      [("_simer_write_bfile", 4), ("_simer_read_bfile", 5),
        ("_simer_GenoFilter", 8), ("_simer_Mat2BigMat", 5),
        ("_simer_BigMat2BigMat", 5), ("_simer_GenoMixer", 7),
        ("_simer_hasNA", 2), ("_simer_hasNABed", 5),
        ("_simer_PedigreeCorrector", 10)] ∧
    R_init_simer.callRoutines.map (fun e => e.arity) =
      [write_bfileParams.length, read_bfileParams.length,
        GenoFilterParams.length, Mat2BigMatParams.length,
        BigMat2BigMatParams.length, GenoMixerParams.length,
        hasNAParams.length, hasNABedParams.length,
        PedigreeCorrectorParams.length] ∧
    R_init_simer.callRoutines.length = 9 ∧
    R_init_simer.useDynamicSymbols = false :=
  ⟨rfl, rfl, rfl, rfl⟩

end Simer
